import Mathlib

/-!
# Verification of the Kaltura metadata XML utility

Shallow embedding of `kaltura_metadata_xml_util.py` (class `MetadataUtils` and
the schema-driven parts of `KalturaMetadataManager`).

* XML trees (the parsed XSD and parsed existing-metadata documents) are modelled
  by the inductive type `Xml`: tag, attribute list, optional text, children.
  lxml's namespace-qualified XSD tags are written `"xsd:element"`, etc.
* Metadata documents built and edited by the code are flat: a `metadata` root
  whose children are leaf elements carrying text.  They are modelled by `Doc`,
  a list of `Inst` (tag + optional text), exactly the spec's data model of a
  document as an ordered sequence of field instances.  On such flat trees
  lxml's descendant search `.//tag` coincides with a search of the children,
  which is how the corresponding operations are embedded.
* Python `None` text is `Option.none`; the empty string is `some ""` (lxml
  distinguishes them; both are falsy).
* Exceptions raised by `add_value_to_metadata` are modelled by returning
  `(some err, doc)` where `doc` is the document state at the raise point
  (the code raises before any mutation), successes by `(none, doc')`.
-/

/-- An XML element: tag, attributes (in order), text, children. -/
inductive Xml where
  | mk (tag : String) (attrs : List (String × String)) (text : Option String)
       (children : List Xml)

def Xml.tag : Xml → String
  | .mk t _ _ _ => t

def Xml.attrs : Xml → List (String × String)
  | .mk _ a _ _ => a

def Xml.text : Xml → Option String
  | .mk _ _ t _ => t

def Xml.children : Xml → List Xml
  | .mk _ _ _ c => c

/-- `elem.get(key)`: first attribute with the given key, if any. -/
def getAttr (x : Xml) (key : String) : Option String :=
  ((x.attrs.filter (fun p => p.1 == key)).head?).map (fun p => p.2)

mutual
/-- All strict descendants of a node in document (preorder) order:
the match semantics of lxml's `.//` paths. -/
def Xml.descendants : Xml → List Xml
  | .mk _ _ _ cs => descList cs

def descList : List Xml → List Xml
  | [] => []
  | c :: cs => c :: c.descendants ++ descList cs
end

mutual
/-- All strict descendants paired with their parent, in document order of the
descendant: used for the `..` step of lxml paths. -/
def Xml.descendantsWP : Xml → List (Xml × Xml)
  | x@(.mk _ _ _ cs) => descListWP x cs

def descListWP (p : Xml) : List Xml → List (Xml × Xml)
  | [] => []
  | c :: cs => (c, p) :: c.descendantsWP ++ descListWP p cs
end

/-- One field instance of a metadata document: element tag and text. -/
structure Inst where
  tag : String
  text : Option String
  deriving DecidableEq

/-- A metadata document: `metadata` root holding the ordered field instances. -/
structure Doc where
  children : List Inst
  deriving DecidableEq

/-- `parent.findall(f".//{t}")` on a flat metadata document. -/
def findInstances (d : Doc) (t : String) : List Inst :=
  d.children.filter (fun c => c.tag == t)

/-- lxml `insert(i, e)`: before index `i`, appending when `i` exceeds the
current length. -/
def listInsert {α : Type} (i : Nat) (a : α) (l : List α) : List α :=
  l.take i ++ a :: l.drop i

/-- In-place `element.text = txt` on the first child with the given tag
(the code always locates the element it mutates by a first-match search). -/
def setFirstText (t : String) (txt : Option String) : List Inst → List Inst
  | [] => []
  | c :: cs => if c.tag == t then { c with text := txt } :: cs
               else c :: setFirstText t txt cs

/-- Python truthiness of element text: `None` and `""` are falsy. -/
def textTruthy : Option String → Bool
  | none => false
  | some s => s != ""

/-- `element.text is None or not element.text.strip()`: stripping leaves
nothing exactly when every character is whitespace. -/
def isBlank : Option String → Bool
  | none => true
  | some s => s.toList.all (fun c => c.isWhitespace)

/-- `xsd_root.findall(".//xsd:element", XSD_NAMESPACE)`. -/
def xsdElements (xsd_root : Xml) : List Xml :=
  xsd_root.descendants.filter (fun e => e.tag == "xsd:element")

/-- `xsd_root.find(f".//xsd:element[@name='{field_name}']", XSD_NAMESPACE)`. -/
def findElemByName (xsd_root : Xml) (field_name : String) : Option Xml :=
  ((xsd_root.descendants.filter
      (fun e => e.tag == "xsd:element" && getAttr e "name" == some field_name)).head?)

/-- Source `is_field_multi_valued`: `maxOccurs not in (None, '1')`, `False`
(with a logged warning) when the XSD does not declare the field. -/
def is_field_multi_valued (field_name : String) (xsd_root : Xml) : Bool :=
  match findElemByName xsd_root field_name with
  | some xsd_element =>
    match getAttr xsd_element "maxOccurs" with
    | none => false
    | some v => v != "1"
  | none => false

def simpleTypeChildren (e : Xml) : List Xml :=
  e.children.filter (fun c => c.tag == "xsd:simpleType")

/-- `.//xsd:element[@name='f']/xsd:simpleType`: lxml iterates the matching
elements in document order and yields each one's matching children. -/
def directSimpleType (field_name : String) (xsd_root : Xml) : Option Xml :=
  (((xsd_root.descendants.filter
        (fun e => e.tag == "xsd:element" && getAttr e "name" == some field_name)).flatMap
      simpleTypeChildren).head?)

/-- `.//xsd:element[@name='f']/../xsd:simpleType`: parent of each matching
element, then that parent's `xsd:simpleType` children. -/
def siblingSimpleType (field_name : String) (xsd_root : Xml) : Option Xml :=
  (((xsd_root.descendantsWP.filter
        (fun p => p.1.tag == "xsd:element" && getAttr p.1 "name" == some field_name)).flatMap
      (fun p => simpleTypeChildren p.2)).head?)

/-- Source `get_restriction_values`: enumerated values of the restriction under
the field's inline simple type, else under a sibling simple type; `[]` when
neither resolves.  An `xsd:enumeration` without a `value` attribute contributes
Python `None`, hence the `Option String` elements. -/
def get_restriction_values (field_name : String) (xsd_root : Xml) : List (Option String) :=
  let field_type_element :=
    match directSimpleType field_name xsd_root with
    | some t => some t
    | none => siblingSimpleType field_name xsd_root
  match field_type_element with
  | none => []
  | some t =>
    match (t.children.filter (fun c => c.tag == "xsd:restriction")).head? with
    | none => []
    | some restriction =>
      (restriction.children.filter (fun c => c.tag == "xsd:enumeration")).map
        (fun e => getAttr e "value")

/-- `xsd_root.find('.//xsd:complexType/xsd:sequence', XSD_NAMESPACE)`. -/
def firstSequence (xsd_root : Xml) : Option Xml :=
  (((xsd_root.descendants.filter (fun e => e.tag == "xsd:complexType")).flatMap
      (fun c => c.children.filter (fun s => s.tag == "xsd:sequence"))).head?)

/-- The direct `xsd:element` children of the first sequence
(`sequence.findall('xsd:element', XSD_NAMESPACE)`), `[]` when there is none. -/
def seqEntries (xsd_root : Xml) : List Xml :=
  match firstSequence xsd_root with
  | some s => s.children.filter (fun e => e.tag == "xsd:element")
  | none => []

/-- The loop body of `find_insert_position`: walk the sequence entries with the
running `position`; return it at the entry named `field_name`, otherwise add
the number of document instances of the entry's name.  An entry without a
`name` attribute is interpolated by Python's f-string as the tag `"None"`. -/
def insertPosGo (metadata_element : Doc) (field_name : String) :
    List Xml → Nat → Nat
  | [], position => position
  | xsd_elem :: rest, position =>
    if getAttr xsd_elem "name" == some field_name then position
    else
      let found := findInstances metadata_element ((getAttr xsd_elem "name").getD "None")
      insertPosGo metadata_element field_name rest
        (if found.length > 0 then position + found.length else position)

/-- Source `find_insert_position`.  When the XSD has no
`complexType/sequence`, the Python local `position` is never assigned and the
final `return position` raises `UnboundLocalError`; this is the `none` case. -/
def find_insert_position (metadata_element : Doc) (field_name : String)
    (xsd_root : Xml) : Option Nat :=
  match firstSequence xsd_root with
  | some s => some (insertPosGo metadata_element field_name
      (s.children.filter (fun e => e.tag == "xsd:element")) 0)
  | none => none

/-- Source `remove_empty_elements`: drop every instance of the field whose text
is `None` or blank after strip. -/
def remove_empty_elements (parent : Doc) (field_name : String) : Doc :=
  ⟨parent.children.filter (fun e => !(e.tag == field_name && isBlank e.text))⟩

/-- The errors `add_value_to_metadata` can raise: the `ValueError` for a value
outside a non-empty restriction list (the spec's `InvalidValueError`), and the
`UnboundLocalError` escaping `find_insert_position`. -/
inductive MErr where
  | invalidValue
  | unboundLocal
  deriving DecidableEq

/-- Source `add_value_to_metadata`, as a state-passing function: the second
component is the document state when the call returns or raises (the
restriction `ValueError` and the position `UnboundLocalError` both occur
before any mutation). -/
def add_value_to_metadata (metadata_element : Doc) (field_name : String)
    (value : String) (xsd_root : Xml) : Option MErr × Doc :=
  let multi_valued := is_field_multi_valued field_name xsd_root
  let restriction_values := get_restriction_values field_name xsd_root
  if restriction_values ≠ [] ∧ some value ∉ restriction_values then
    (some .invalidValue, metadata_element)
  else
    let existing_elements := findInstances metadata_element field_name
    if multi_valued then
      if existing_elements.any (fun e => e.text == some value) then
        (none, remove_empty_elements metadata_element field_name)
      else
        match find_insert_position metadata_element field_name xsd_root with
        | none => (some .unboundLocal, metadata_element)
        | some p =>
          (none, remove_empty_elements
            ⟨listInsert p ⟨field_name, some value⟩ metadata_element.children⟩ field_name)
    else
      if existing_elements ≠ [] then
        (none, ⟨setFirstText field_name (some value) metadata_element.children⟩)
      else
        match find_insert_position metadata_element field_name xsd_root with
        | none => (some .unboundLocal, metadata_element)
        | some p =>
          (none, ⟨listInsert p ⟨field_name, some value⟩ metadata_element.children⟩)

/-- The element declarations the template is built from: every descendant
`xsd:element` whose `name` attribute is not `'metadata'` (an element without a
`name` passes this check too, since Python `None != 'metadata'`). -/
def catalogElems (xsd_root : Xml) : List Xml :=
  (xsdElements xsd_root).filter (fun e => !(getAttr e "name" == some "metadata"))

/-- Source `build_metadata_template`: one empty instance per catalog element,
in document order.  `ET.SubElement(parent, None)` raises `TypeError`, hence
`none` when some catalog element lacks a `name` attribute. -/
def build_metadata_template (xsd_root : Xml) : Option Doc :=
  if (catalogElems xsd_root).all (fun e => (getAttr e "name").isSome) then
    some ⟨(catalogElems xsd_root).map
      (fun e => { tag := (getAttr e "name").getD "None", text := some "" })⟩
  else none

/-- `item_tree.find(f'.//{t}')`: first strict descendant with the tag. -/
def findDesc (item : Xml) (t : String) : Option Xml :=
  ((item.descendants.filter (fun e => e.tag == t)).head?)

/-- `minOccurs` of the first XSD declaration of the field
(`xsd_elem.get('minOccurs') if xsd_elem is not None else None`). -/
def minOccursOf (field_name : String) (xsd_root : Xml) : Option String :=
  match findElemByName xsd_root field_name with
  | some e => getAttr e "minOccurs"
  | none => none

/-- One iteration of the merge loop of `get_metadata_template_with_values`,
for a single template instance: keep it with the copied text when the existing
document has a same-named element with truthy text; otherwise drop it when the
field's `minOccurs` is `'0'`, else keep it unchanged. -/
def mergeField (item : Xml) (xsd_root : Xml) (template_elem : Inst) : Option Inst :=
  match findDesc item template_elem.tag with
  | some corresponding =>
    if textTruthy corresponding.text then
      some { template_elem with text := corresponding.text }
    else if minOccursOf template_elem.tag xsd_root == some "0" then none
    else some template_elem
  | none =>
    if minOccursOf template_elem.tag xsd_root == some "0" then none
    else some template_elem

/-- Source `get_metadata_template_with_values` on an already-parsed existing
document `item`: each snapshot iteration mutates or removes only the current
template child, so the loop is a `filterMap`; a fresh template is rebuilt when
everything was removed. -/
def get_metadata_template_with_values (item : Xml) (xsd_root : Xml) : Option Doc :=
  match build_metadata_template xsd_root with
  | none => none
  | some template_tree =>
    let processed := template_tree.children.filterMap (mergeField item xsd_root)
    if processed.isEmpty then build_metadata_template xsd_root
    else some ⟨processed⟩

/-- One instance as serialized by `pretty_print_element` (indented child line;
empty text prints a self-closing tag). -/
def renderInst (i : Inst) : String :=
  match i.text with
  | some t =>
    if t == "" then "  <" ++ i.tag ++ "/>\n"
    else "  <" ++ i.tag ++ ">" ++ t ++ "</" ++ i.tag ++ ">\n"
  | none => "  <" ++ i.tag ++ "/>\n"

/-- Source `pretty_print_element` on a flat metadata document. -/
def render (d : Doc) : String :=
  "<metadata>\n" ++ String.join (d.children.map renderInst) ++ "</metadata>\n"

/-- `ET.fromstring(pretty_print(doc))` on a flat document: the same flat tree;
an empty-text instance serializes as `<t/>` and re-parses with `None` text. -/
def instToXml (i : Inst) : Xml :=
  .mk i.tag []
    (match i.text with
     | some t => if t == "" then none else some t
     | none => none) []

def docToXml (d : Doc) : Xml :=
  .mk "metadata" [] none (d.children.map instToXml)

/-- The field name of a declaration as interpolated into the code's f-string
paths: the `name` attribute, or the text `"None"` when it is absent. -/
def elemName (e : Xml) : String :=
  (getAttr e "name").getD "None"

/-- One iteration of the `populate_default_values` loop for the declaration
`e`: skip the root wrapper and fields with no instance; fill the first blank
restricted non-multi-valued instance with the first enumerated value; else
blank the first instance of an optional field when `skip_optional`. -/
def populate_step (xsd_root : Xml) (skip_optional : Bool) (d : Doc) (e : Xml) : Doc :=
  if getAttr e "name" == some "metadata" then d
  else
    match (findInstances d (elemName e)).head? with
    | none => d
    | some metadata_element =>
      match get_restriction_values (elemName e) xsd_root,
            is_field_multi_valued (elemName e) xsd_root with
      | first_value :: _, false =>
        if isBlank metadata_element.text then
          ⟨setFirstText (elemName e) first_value d.children⟩
        else d
      | _, _ =>
        if getAttr e "minOccurs" == some "0" && skip_optional then
          ⟨setFirstText (elemName e) (some "") d.children⟩
        else d

/-- Source `populate_default_values`: the loop over every declaration, each
iteration mutating at most the first instance of its field. -/
def populate_default_values (d : Doc) (xsd_root : Xml) (skip_optional : Bool) : Doc :=
  (xsdElements xsd_root).foldl (populate_step xsd_root skip_optional) d

/-! ## Concrete schemas and documents used by witnesses and counterexamples -/

/-- A schema in the shape of the Kaltura profiles the script targets:
`Email` optional and unbounded, `Format` single-valued and restricted. -/
def sampleXsd : Xml :=
  .mk "xsd:schema" [] none
    [.mk "xsd:element" [("name", "metadata")] none
      [.mk "xsd:complexType" [] none
        [.mk "xsd:sequence" [] none
          [.mk "xsd:element" [("name", "Email"), ("minOccurs", "0"), ("maxOccurs", "unbounded")] none [],
           .mk "xsd:element" [("name", "Format")] none
             [.mk "xsd:simpleType" [] none
               [.mk "xsd:restriction" [("base", "xsd:string")] none
                 [.mk "xsd:enumeration" [("value", "Go-Pro camera")] none [],
                  .mk "xsd:enumeration" [("value", "Phone")] none []]]]]]]]

/-- A schema declaring a field `X` outside the ordered sequence, before it:
the catalog then holds `X`, `A`, `B` while only `A`, `B` have positions. -/
def strayFieldXsd : Xml :=
  .mk "xsd:schema" [] none
    [.mk "xsd:element" [("name", "X")] none [],
     .mk "xsd:element" [("name", "metadata")] none
      [.mk "xsd:complexType" [] none
        [.mk "xsd:sequence" [] none
          [.mk "xsd:element" [("name", "A")] none [],
           .mk "xsd:element" [("name", "B"), ("minOccurs", "0")] none []]]]]

/-- A schema with a multi-valued field restricted to the single value `Red`. -/
def restrictedMultiXsd : Xml :=
  .mk "xsd:schema" [] none
    [.mk "xsd:element" [("name", "metadata")] none
      [.mk "xsd:complexType" [] none
        [.mk "xsd:sequence" [] none
          [.mk "xsd:element" [("name", "Tag"), ("maxOccurs", "unbounded")] none
             [.mk "xsd:simpleType" [] none
               [.mk "xsd:restriction" [("base", "xsd:string")] none
                 [.mk "xsd:enumeration" [("value", "Red")] none []]]]]]]]

/-- A schema with one required field `A` and no restrictions. -/
def requiredOnlyXsd : Xml :=
  .mk "xsd:schema" [] none
    [.mk "xsd:element" [("name", "metadata")] none
      [.mk "xsd:complexType" [] none
        [.mk "xsd:sequence" [] none
          [.mk "xsd:element" [("name", "A")] none []]]]]

/-- A schema with element declarations but no `complexType/sequence` group. -/
def noSequenceXsd : Xml :=
  .mk "xsd:schema" [] none
    [.mk "xsd:element" [("name", "A")] none []]

example : build_metadata_template sampleXsd
    = some ⟨[⟨"Email", some ""⟩, ⟨"Format", some ""⟩]⟩ := by decide

example : is_field_multi_valued "Email" sampleXsd = true := by decide
example : is_field_multi_valued "Format" sampleXsd = false := by decide
example : get_restriction_values "Format" sampleXsd
    = [some "Go-Pro camera", some "Phone"] := by decide
example : get_restriction_values "Email" sampleXsd = [] := by decide
example : find_insert_position ⟨[⟨"Email", some "a"⟩]⟩ "Format" sampleXsd = some 1 := by
  decide
example : find_insert_position ⟨[]⟩ "A" noSequenceXsd = none := by decide

example :
    add_value_to_metadata ⟨[⟨"Email", some ""⟩, ⟨"Format", some ""⟩]⟩ "Email"
      "a@test.com" sampleXsd
    = (none, ⟨[⟨"Email", some "a@test.com"⟩, ⟨"Format", some ""⟩]⟩) := by decide

example :
    add_value_to_metadata ⟨[⟨"Email", some "a@test.com"⟩, ⟨"Format", some ""⟩]⟩ "Email"
      "b@test.com" sampleXsd
    = (none, ⟨[⟨"Email", some "b@test.com"⟩, ⟨"Email", some "a@test.com"⟩,
               ⟨"Format", some ""⟩]⟩) := by decide

example :
    add_value_to_metadata ⟨[⟨"Email", some ""⟩, ⟨"Format", some ""⟩]⟩ "Format"
      "Drone" sampleXsd
    = (some .invalidValue, ⟨[⟨"Email", some ""⟩, ⟨"Format", some ""⟩]⟩) := by decide

example :
    get_metadata_template_with_values
      (.mk "metadata" [] none [.mk "Format" [] (some "Phone") []]) sampleXsd
    = some ⟨[⟨"Format", some "Phone"⟩]⟩ := by decide

example :
    populate_default_values ⟨[⟨"Email", some "x"⟩, ⟨"Format", some ""⟩]⟩ sampleXsd true
    = ⟨[⟨"Email", some ""⟩, ⟨"Format", some "Go-Pro camera"⟩]⟩ := by decide

/-! ## General lemmas about the embedded operations -/

/-- A successful `add_value_to_metadata` call passed the restriction check. -/
theorem add_value_ok_restriction {doc : Doc} {f v : String} {root : Xml} {d : Doc}
    (h : add_value_to_metadata doc f v root = (none, d)) :
    ¬(get_restriction_values f root ≠ [] ∧ some v ∉ get_restriction_values f root) := by
  intro hc
  unfold add_value_to_metadata at h
  rw [if_pos hc] at h
  exact Option.noConfusion (congrArg Prod.fst h)

/-- No instance surviving `remove_empty_elements` for a field is blank. -/
theorem remove_empty_no_blank (p : Doc) (f : String) :
    ∀ c ∈ (remove_empty_elements p f).children, c.tag = f → isBlank c.text = false := by
  intro c hc ht
  unfold remove_empty_elements at hc
  simp only [List.mem_filter, Bool.not_eq_true', Bool.and_eq_false_iff] at hc
  rcases hc.2 with h | h
  · exact absurd ht (by simpa using h)
  · exact h

/-- Claim C1: with a non-empty restriction list not containing the value,
`add_value_to_metadata` raises the invalid-value error and the document —
hence its serialized form — is unchanged. -/
theorem C1_restriction_enforcement (doc : Doc) (f v : String) (root : Xml)
    (h : get_restriction_values f root ≠ [] ∧ some v ∉ get_restriction_values f root) :
    add_value_to_metadata doc f v root = (some MErr.invalidValue, doc) ∧
    render (add_value_to_metadata doc f v root).2 = render doc := by
  have he : add_value_to_metadata doc f v root = (some MErr.invalidValue, doc) := by
    unfold add_value_to_metadata
    exact if_pos h
  exact ⟨he, by rw [he]⟩

theorem C1_restriction_enforcement_witness :
    add_value_to_metadata ⟨[⟨"Email", some ""⟩, ⟨"Format", some ""⟩]⟩ "Format" "Drone"
        sampleXsd
      = (some MErr.invalidValue, ⟨[⟨"Email", some ""⟩, ⟨"Format", some ""⟩]⟩) ∧
    render (add_value_to_metadata ⟨[⟨"Email", some ""⟩, ⟨"Format", some ""⟩]⟩ "Format"
        "Drone" sampleXsd).2
      = render ⟨[⟨"Email", some ""⟩, ⟨"Format", some ""⟩]⟩ :=
  C1_restriction_enforcement ⟨[⟨"Email", some ""⟩, ⟨"Format", some ""⟩]⟩ "Format" "Drone"
    sampleXsd (by decide)

/-- Claim C5: a successful `setValue` on a multi-valued field leaves no blank
instance of that field in the document. -/
theorem C5_empty_pruning (doc : Doc) (f v : String) (root : Xml) (d : Doc)
    (hm : is_field_multi_valued f root = true)
    (hok : add_value_to_metadata doc f v root = (none, d)) :
    ∀ c ∈ d.children, c.tag = f → isBlank c.text = false := by
  unfold add_value_to_metadata at hok
  rw [if_neg (add_value_ok_restriction (by assumption))] at hok
  · simp only [hm, if_true] at hok
    split at hok
    · obtain rfl : remove_empty_elements doc f = d := congrArg Prod.snd hok
      exact remove_empty_no_blank doc f
    · split at hok
      · exact Option.noConfusion (congrArg Prod.fst hok)
      · obtain rfl := congrArg Prod.snd hok
        exact remove_empty_no_blank _ f

theorem C5_empty_pruning_witness :
    isBlank (⟨"Email", some "a@test.com"⟩ : Inst).text = false :=
  C5_empty_pruning ⟨[⟨"Email", some ""⟩, ⟨"Format", some ""⟩]⟩ "Email" "a@test.com"
    sampleXsd ⟨[⟨"Email", some "a@test.com"⟩, ⟨"Format", some ""⟩]⟩ (by decide) (by decide)
    ⟨"Email", some "a@test.com"⟩ (by decide) (by decide)

/-- Claim C10: with no `complexType/sequence` in the schema and no existing
instance of the field, `setValue` fails with the unbound-local error escaping
`find_insert_position` (not the invalid-value error), for any value passing
the restriction check. -/
theorem C10_insert_unbound_local (doc : Doc) (f v : String) (root : Xml)
    (hseq : firstSequence root = none)
    (hnone : findInstances doc f = [])
    (hr : ¬(get_restriction_values f root ≠ [] ∧ some v ∉ get_restriction_values f root)) :
    add_value_to_metadata doc f v root = (some MErr.unboundLocal, doc) := by
  unfold add_value_to_metadata
  rw [if_neg hr]
  have hpos : find_insert_position doc f root = none := by
    unfold find_insert_position
    rw [hseq]
  cases hmv : is_field_multi_valued f root <;>
    simp [hmv, hnone, hpos]

theorem C10_insert_unbound_local_witness :
    add_value_to_metadata ⟨[]⟩ "A" "v" noSequenceXsd = (some MErr.unboundLocal, ⟨[]⟩) :=
  C10_insert_unbound_local ⟨[]⟩ "A" "v" noSequenceXsd (by rfl) (by decide) (by decide)

/-! ## The insert-position computation -/

/-- The names of the first sequence's entries, in declared order — the schema's
ordered field sequence (`sequencePosition` is the index in this list). -/
def entryNames (xsd_root : Xml) : List String :=
  (seqEntries xsd_root).map (fun e => (getAttr e "name").getD "None")

/-- Modelled from the spec's wording of the insert-position algorithm: the
fields strictly preceding the target field in the ordered sequence. -/
def precedingFields (f : String) (names : List String) : List String :=
  names.takeWhile (fun n => !(n == f))

/-- Total instance count of a list of field names in a document. -/
def sumCounts (d : Doc) (pre : List String) : Nat :=
  (pre.map (fun n => (findInstances d n).length)).sum

theorem insertPosGo_eq_sumCounts (d : Doc) (f : String) :
    ∀ (entries : List Xml) (acc : Nat),
      (∀ e ∈ entries, (getAttr e "name").isSome = true) →
      insertPosGo d f entries acc
        = acc + sumCounts d (precedingFields f
            (entries.map (fun e => (getAttr e "name").getD "None"))) := by
  intro entries
  induction entries with
  | nil => intro acc _; simp [insertPosGo, precedingFields, sumCounts]
  | cons e rest ih =>
    intro acc hn
    obtain ⟨s, hs⟩ := Option.isSome_iff_exists.mp (hn e (List.mem_cons_self e rest))
    by_cases hsf : s = f
    · subst hsf
      rw [insertPosGo]
      simp [hs, precedingFields, sumCounts]
    · have h1 : (getAttr e "name" == some f) = false := by
        simp [hs, hsf]
      rw [insertPosGo]
      simp only [h1, Bool.false_eq_true, if_false]
      rw [ih _ (fun x hx => hn x (List.mem_cons_of_mem e hx))]
      have h2 : (if (findInstances d ((getAttr e "name").getD "None")).length > 0
          then acc + (findInstances d ((getAttr e "name").getD "None")).length
          else acc)
          = acc + (findInstances d ((getAttr e "name").getD "None")).length := by
        split
        · rfl
        · omega
      rw [h2]
      have h3 : precedingFields f
            ((e :: rest).map (fun x => (getAttr x "name").getD "None"))
          = ((getAttr e "name").getD "None")
              :: precedingFields f (rest.map (fun x => (getAttr x "name").getD "None")) := by
        simp only [List.map_cons, precedingFields, List.takeWhile_cons, hs, Option.getD_some]
        have : (s == f) = false := by simp [hsf]
        rw [this]
        rfl
      rw [h3]
      simp [sumCounts]
      omega

theorem filter_mem_cons_split (n : String) (pre : List String) (hnp : n ∉ pre) :
    ∀ cs : List Inst,
      (cs.filter (fun c => decide (c.tag ∈ n :: pre))).length
        = (cs.filter (fun c => c.tag == n)).length
          + (cs.filter (fun c => decide (c.tag ∈ pre))).length := by
  intro cs
  induction cs with
  | nil => simp
  | cons c cs ih =>
    rw [List.filter_cons, List.filter_cons, List.filter_cons]
    by_cases h1 : c.tag = n
    · have hmem : c.tag ∉ pre := h1 ▸ hnp
      have ha : decide (c.tag ∈ n :: pre) = true := by simp [h1]
      have hb : (c.tag == n) = true := by simp [h1]
      have hc : decide (c.tag ∈ pre) = false := decide_eq_false hmem
      simp only [ha, hb, hc, eq_self_iff_true, if_true, Bool.false_eq_true, if_false,
        List.length_cons]
      omega
    · by_cases h2 : c.tag ∈ pre
      · have ha : decide (c.tag ∈ n :: pre) = true := by simp [h2]
        have hb : (c.tag == n) = false := by simp [h1]
        have hc : decide (c.tag ∈ pre) = true := decide_eq_true h2
        simp only [ha, hb, hc, eq_self_iff_true, if_true, Bool.false_eq_true, if_false,
          List.length_cons]
        omega
      · have ha : decide (c.tag ∈ n :: pre) = false := by simp [h1, h2]
        have hb : (c.tag == n) = false := by simp [h1]
        have hc : decide (c.tag ∈ pre) = false := decide_eq_false h2
        simp only [ha, hb, hc, eq_self_iff_true, if_true, Bool.false_eq_true, if_false,
          List.length_cons]
        omega

theorem sumCounts_eq_filter_length (d : Doc) :
    ∀ pre : List String, pre.Nodup →
      sumCounts d pre = (d.children.filter (fun c => decide (c.tag ∈ pre))).length := by
  intro pre
  induction pre with
  | nil => intro _; simp [sumCounts]
  | cons n pre ih =>
    intro hnd
    rw [List.nodup_cons] at hnd
    have := filter_mem_cons_split n pre hnd.1 d.children
    simp only [sumCounts, List.map_cons, List.sum_cons] at *
    rw [this, ih hnd.2]
    rfl

/-- Under well-formed sequence entries (all named, names distinct),
`find_insert_position` returns the number of document instances whose field
strictly precedes the target in the schema's ordered sequence. -/
theorem find_insert_position_eq (d : Doc) (f : String) (root : Xml)
    (hs : (firstSequence root).isSome = true)
    (hn : ∀ e ∈ seqEntries root, (getAttr e "name").isSome = true)
    (hnd : (entryNames root).Nodup) :
    find_insert_position d f root
      = some ((d.children.filter
          (fun c => decide (c.tag ∈ precedingFields f (entryNames root)))).length) := by
  obtain ⟨s, hseq⟩ := Option.isSome_iff_exists.mp hs
  have hentries : seqEntries root = s.children.filter (fun e => e.tag == "xsd:element") := by
    unfold seqEntries
    rw [hseq]
  have hpre : (precedingFields f (entryNames root)).Nodup :=
    List.Nodup.sublist (List.takeWhile_prefix _).sublist hnd
  have hfip : find_insert_position d f root
      = some (insertPosGo d f (s.children.filter (fun e => e.tag == "xsd:element")) 0) := by
    unfold find_insert_position
    rw [hseq]
  rw [hfip, ← hentries]
  rw [insertPosGo_eq_sumCounts d f (seqEntries root) 0 hn]
  have hmap : (seqEntries root).map (fun e => (getAttr e "name").getD "None")
      = entryNames root := rfl
  rw [hmap, sumCounts_eq_filter_length d _ hpre, Nat.zero_add]

/-- Claim C2: for a field of the schema's first top-level sequence (sequence
entries named and, per the data model, with distinct names), the insert index
computed by `setValue` is the total number of document instances of fields
strictly preceding the target in that sequence — occurrences summed, not mere
presence. -/
theorem C2_insert_index_counts_preceding_instances (d : Doc) (f : String) (root : Xml)
    (hs : (firstSequence root).isSome = true)
    (hn : ∀ e ∈ seqEntries root, (getAttr e "name").isSome = true)
    (hnd : (entryNames root).Nodup)
    (_hf : f ∈ entryNames root) :
    find_insert_position d f root
      = some ((d.children.filter
          (fun c => decide (c.tag ∈ precedingFields f (entryNames root)))).length) :=
  find_insert_position_eq d f root hs hn hnd

theorem C2_insert_index_counts_preceding_instances_witness :
    find_insert_position ⟨[⟨"Email", some "a"⟩, ⟨"Email", some "b"⟩, ⟨"Other", some "x"⟩]⟩
        "Format" sampleXsd
      = some (((⟨[⟨"Email", some "a"⟩, ⟨"Email", some "b"⟩, ⟨"Other", some "x"⟩]⟩ : Doc).children.filter
          (fun c => decide (c.tag ∈ precedingFields "Format" (entryNames sampleXsd)))).length) :=
  C2_insert_index_counts_preceding_instances
    ⟨[⟨"Email", some "a"⟩, ⟨"Email", some "b"⟩, ⟨"Other", some "x"⟩]⟩ "Format" sampleXsd
    (by rfl) (by decide) (by decide) (by decide)

example :
    find_insert_position ⟨[⟨"Email", some "a"⟩, ⟨"Email", some "b"⟩, ⟨"Other", some "x"⟩]⟩
      "Format" sampleXsd = some 2 := by decide


/-! ## The document merger -/

/-- Whether the existing document has a same-named element with truthy text:
the condition under which the merge loop copies a value. -/
def foundTruthy (item : Xml) (t : String) : Bool :=
  match findDesc item t with
  | some e => textTruthy e.text
  | none => false

theorem mergeField_tag {item root : Xml} {c c' : Inst}
    (h : mergeField item root c = some c') : c'.tag = c.tag := by
  unfold mergeField at h
  split at h
  · split at h
    · exact (Option.some_injective _ h).symm ▸ rfl
    · split at h
      · exact Option.noConfusion h
      · exact (Option.some_injective _ h) ▸ rfl
  · split at h
    · exact Option.noConfusion h
    · exact (Option.some_injective _ h) ▸ rfl

theorem mergeField_none_iff (item root : Xml) (c : Inst) :
    mergeField item root c = none
      ↔ (foundTruthy item c.tag = false ∧ minOccursOf c.tag root = some "0") := by
  unfold mergeField foundTruthy
  split
  · rename_i e he
    split
    · rename_i ht
      simp [ht]
    · rename_i ht
      simp only [Bool.not_eq_true] at ht
      simp only [ht, true_and]
      split
      · rename_i h0
        simp only [beq_iff_eq] at h0
        simp [h0]
      · rename_i h0
        simp only [beq_iff_eq] at h0
        simp [h0]
  · simp only [true_and]
    split
    · rename_i h0
      simp only [beq_iff_eq] at h0
      simp [h0]
    · rename_i h0
      simp only [beq_iff_eq] at h0
      simp [h0]

theorem build_text {root : Xml} {tmpl : Doc}
    (hb : build_metadata_template root = some tmpl) :
    ∀ c ∈ tmpl.children, c.text = some "" := by
  unfold build_metadata_template at hb
  split at hb
  · obtain rfl := Option.some_injective _ hb.symm
    intro c hc
    simp only [List.mem_map] at hc
    obtain ⟨e, _, rfl⟩ := hc
    rfl
  · exact Option.noConfusion hb

/-- Claim C6: in a merge, a template field with no same-named element carrying
truthy text in the existing document and with `minOccurs='0'` is removed from
the processed result entirely; and when this pass removes every instance, the
result is discarded for a fresh unconditional template. -/
theorem C6_merge_optional_removal (item root : Xml) (tmpl res : Doc)
    (hb : build_metadata_template root = some tmpl)
    (hm : get_metadata_template_with_values item root = some res) :
    (tmpl.children.filterMap (mergeField item root) = [] → res = tmpl) ∧
    (tmpl.children.filterMap (mergeField item root) ≠ [] →
      (∀ t : String, foundTruthy item t = false → minOccursOf t root = some "0" →
        ∀ c ∈ res.children, c.tag ≠ t)) := by
  unfold get_metadata_template_with_values at hm
  rw [hb] at hm
  simp only [] at hm
  split at hm
  · rename_i hemp
    obtain rfl := Option.some_injective _ hm
    rw [List.isEmpty_iff] at hemp
    constructor
    · intro _; rfl
    · intro hne
      exact absurd hemp hne
  · rename_i hemp
    rw [List.isEmpty_iff] at hemp
    obtain rfl := Option.some_injective _ hm
    constructor
    · intro h; exact absurd h hemp
    · intro _ t hft h0 c hc htag
      simp only [List.mem_filterMap] at hc
      obtain ⟨orig, horig, hmf⟩ := hc
      have : c.tag = orig.tag := mergeField_tag hmf
      have hdrop : mergeField item root orig = none := by
        rw [mergeField_none_iff]
        rw [← this, htag]
        exact ⟨hft, h0⟩
      rw [hdrop] at hmf
      exact Option.noConfusion hmf

theorem C6_merge_optional_removal_witness :
    ((⟨[⟨"Email", some ""⟩, ⟨"Format", some ""⟩]⟩ : Doc).children.filterMap
        (mergeField (Xml.mk "metadata" [] none [Xml.mk "Format" [] (some "Phone") []])
          sampleXsd) = []
      → (⟨[⟨"Format", some "Phone"⟩]⟩ : Doc) = ⟨[⟨"Email", some ""⟩, ⟨"Format", some ""⟩]⟩) ∧
    ((⟨[⟨"Email", some ""⟩, ⟨"Format", some ""⟩]⟩ : Doc).children.filterMap
        (mergeField (Xml.mk "metadata" [] none [Xml.mk "Format" [] (some "Phone") []])
          sampleXsd) ≠ []
      → (∀ t : String,
          foundTruthy (Xml.mk "metadata" [] none [Xml.mk "Format" [] (some "Phone") []]) t = false →
          minOccursOf t sampleXsd = some "0" →
          ∀ c ∈ (⟨[⟨"Format", some "Phone"⟩]⟩ : Doc).children, c.tag ≠ t)) :=
  C6_merge_optional_removal
    (Xml.mk "metadata" [] none [Xml.mk "Format" [] (some "Phone") []]) sampleXsd
    ⟨[⟨"Email", some ""⟩, ⟨"Format", some ""⟩]⟩ ⟨[⟨"Format", some "Phone"⟩]⟩
    (by decide) (by decide)

/-- Claim C7 counterexample: the merge copies whitespace-only text.  The
existing document's `A` element holds the blank-after-trim text `" "`
(`isBlank` is true), yet the merged result's `A` instance carries `" "` —
overwritten, not left as the template's `""` — because the code tests Python
truthiness (`corresponding_item_elem.text`), not blankness after strip. -/
theorem C7_counterexample_whitespace_copied :
    get_metadata_template_with_values
        (Xml.mk "metadata" [] none [Xml.mk "A" [] (some " ") []]) requiredOnlyXsd
      = some ⟨[⟨"A", some " "⟩]⟩ ∧
    isBlank (some " ") = true ∧ (some " " : Option String) ≠ some "" := by
  refine ⟨by decide, by decide, by decide⟩

/-- Claim C7 amended: in a merge, every instance of the result carries the
text of the first same-named element of the existing document exactly when
that element exists and its text is truthy (neither `None` nor the empty
string — whitespace-only text is truthy and is copied); otherwise the
template's empty text remains. -/
theorem C7_merge_copies_truthy_text (item root : Xml) (tmpl res : Doc)
    (hb : build_metadata_template root = some tmpl)
    (hm : get_metadata_template_with_values item root = some res) :
    ∀ c ∈ res.children,
      c.text = (match findDesc item c.tag with
                | some e => if textTruthy e.text then e.text else some ""
                | none => some "") := by
  unfold get_metadata_template_with_values at hm
  rw [hb] at hm
  simp only [] at hm
  split at hm
  · rename_i hemp
    obtain rfl := Option.some_injective _ hm
    rw [List.isEmpty_iff, List.filterMap_eq_nil_iff] at hemp
    intro c hc
    have hnone := hemp c hc
    rw [mergeField_none_iff] at hnone
    have htext := build_text hb c hc
    unfold foundTruthy at hnone
    rcases hft : findDesc item c.tag with _ | e
    · exact htext
    · rw [hft] at hnone
      have hfalse : textTruthy e.text = false := hnone.1
      show c.text = if textTruthy e.text = true then e.text else some ""
      simp only [hfalse, Bool.false_eq_true, if_false]
      exact htext
  · rename_i hemp
    obtain rfl := Option.some_injective _ hm
    intro c hc
    simp only [List.mem_filterMap] at hc
    obtain ⟨orig, horig, hmf⟩ := hc
    have htag : c.tag = orig.tag := mergeField_tag hmf
    have htext := build_text hb orig horig
    rw [htag]
    unfold mergeField at hmf
    rcases hft : findDesc item orig.tag with _ | e
    · rw [hft] at hmf
      replace hmf : (if (minOccursOf orig.tag root == some "0") = true
          then none else some orig) = some c := hmf
      show c.text = some ""
      split at hmf
      · exact Option.noConfusion hmf
      · obtain rfl := Option.some_injective _ hmf
        exact htext
    · rw [hft] at hmf
      replace hmf : (if textTruthy e.text = true
          then some { tag := orig.tag, text := e.text }
          else if (minOccursOf orig.tag root == some "0") = true
            then none else some orig) = some c := hmf
      show c.text = if textTruthy e.text = true then e.text else some ""
      by_cases htr : textTruthy e.text = true
      · rw [if_pos htr] at hmf
        obtain rfl := (Option.some_injective _ hmf).symm
        rw [if_pos htr]
      · rw [if_neg htr] at hmf
        simp only [Bool.not_eq_true] at htr
        simp only [htr, Bool.false_eq_true, if_false]
        split at hmf
        · exact Option.noConfusion hmf
        · obtain rfl := Option.some_injective _ hmf
          exact htext

theorem C7_merge_copies_truthy_text_witness :
    (⟨"Format", some "Phone"⟩ : Inst).text
      = (match findDesc (Xml.mk "metadata" [] none
            [Xml.mk "Format" [] (some "Phone") []]) (⟨"Format", some "Phone"⟩ : Inst).tag with
         | some e => if textTruthy e.text then e.text else some ""
         | none => some "") :=
  C7_merge_copies_truthy_text
    (Xml.mk "metadata" [] none [Xml.mk "Format" [] (some "Phone") []]) sampleXsd
    ⟨[⟨"Email", some ""⟩, ⟨"Format", some ""⟩]⟩ ⟨[⟨"Format", some "Phone"⟩]⟩
    (by decide) (by decide) ⟨"Format", some "Phone"⟩ (by decide)

/-! ## The render/parse round trip -/

theorem descList_map_instToXml (l : List Inst) :
    descList (l.map instToXml) = l.map instToXml := by
  induction l with
  | nil => rfl
  | cons c cs ih =>
    simp only [List.map_cons, descList]
    have hleaf : (instToXml c).descendants = [] := by
      unfold instToXml Xml.descendants
      rfl
    rw [hleaf, ih]
    rfl

theorem descendants_docToXml (d : Doc) :
    (docToXml d).descendants = d.children.map instToXml := by
  unfold docToXml Xml.descendants
  exact descList_map_instToXml d.children

/-- A re-parsed rendered template carries no truthy text anywhere: all its
elements come from empty-text template instances. -/
theorem docToXml_template_text {root : Xml} {tmpl : Doc}
    (hb : build_metadata_template root = some tmpl) :
    ∀ t : String, ∀ e : Xml, findDesc (docToXml tmpl) t = some e → e.text = none := by
  intro t e he
  unfold findDesc at he
  have hmem : e ∈ (docToXml tmpl).descendants.filter (fun x => x.tag == t) :=
    List.mem_of_mem_head? (by rw [he]; exact Option.mem_some_self e)
  rw [List.mem_filter] at hmem
  rw [descendants_docToXml] at hmem
  obtain ⟨hmem', _⟩ := hmem
  rw [List.mem_map] at hmem'
  obtain ⟨c, hc, rfl⟩ := hmem'
  have := build_text hb c hc
  unfold instToXml
  rw [this]
  rfl

theorem filterMap_eq_self_of_some {α : Type} (g : α → Option α) (l : List α)
    (h : ∀ a ∈ l, g a = some a) : l.filterMap g = l := by
  induction l with
  | nil => rfl
  | cons a as ih =>
    rw [List.filterMap_cons, h a (List.mem_cons_self a as)]
    rw [ih (fun x hx => h x (List.mem_cons_of_mem a hx))]

/-- Claim C8 counterexample: for the mixed schema `sampleXsd` (`Email`
optional, `Format` required) merging the rendered fresh template does NOT
reproduce the template: the empty `Email` instance re-parses with falsy text
and, being optional, is dropped. -/
theorem C8_counterexample_roundtrip_drops_optional :
    build_metadata_template sampleXsd
      = some ⟨[⟨"Email", some ""⟩, ⟨"Format", some ""⟩]⟩ ∧
    get_metadata_template_with_values
        (docToXml ⟨[⟨"Email", some ""⟩, ⟨"Format", some ""⟩]⟩) sampleXsd
      = some ⟨[⟨"Format", some ""⟩]⟩ := by
  refine ⟨by decide, by decide⟩

/-- Claim C8 amended: the merge of the rendered fresh template reproduces
exactly the template's field instances for schemas in which the catalog
fields are either all optional (`minOccurs='0'` — the pass drops everything
and the guard rebuilds the full template) or none are (nothing is dropped);
for mixed schemas the optional fields are dropped (see the counterexample). -/
theorem C8_merge_roundtrip_uniform_optionality (root : Xml) (tmpl : Doc)
    (hb : build_metadata_template root = some tmpl)
    (huni : (∀ c ∈ tmpl.children, minOccursOf c.tag root = some "0")
          ∨ (∀ c ∈ tmpl.children, minOccursOf c.tag root ≠ some "0")) :
    get_metadata_template_with_values (docToXml tmpl) root = some tmpl := by
  have hfield : ∀ c ∈ tmpl.children,
      mergeField (docToXml tmpl) root c
        = (if minOccursOf c.tag root = some "0" then none else some c) := by
    intro c hc
    unfold mergeField
    rcases hft : findDesc (docToXml tmpl) c.tag with _ | e
    · by_cases h0 : minOccursOf c.tag root = some "0"
      · rw [if_pos h0]
        simp [h0]
      · rw [if_neg h0]
        simp only [beq_iff_eq]
        rw [if_neg h0]
    · have he2 : e.text = none := docToXml_template_text hb c.tag e hft
      show (if textTruthy e.text = true then some { tag := c.tag, text := e.text }
            else if (minOccursOf c.tag root == some "0") = true then none else some c)
          = if minOccursOf c.tag root = some "0" then none else some c
      rw [he2]
      rw [if_neg (by simp [textTruthy])]
      by_cases h0 : minOccursOf c.tag root = some "0"
      · rw [if_pos h0, if_pos (by simp [h0])]
      · rw [if_neg h0, if_neg (by simp [h0])]
  unfold get_metadata_template_with_values
  rw [hb]
  simp only []
  rcases huni with hall | hnone
  · have hproc : tmpl.children.filterMap (mergeField (docToXml tmpl) root) = [] := by
      rw [List.filterMap_eq_nil_iff]
      intro c hc
      rw [hfield c hc, if_pos (hall c hc)]
    rw [hproc]
    rfl
  · have hproc : tmpl.children.filterMap (mergeField (docToXml tmpl) root)
        = tmpl.children := by
      apply filterMap_eq_self_of_some
      intro c hc
      rw [hfield c hc, if_neg (hnone c hc)]
    rw [hproc]
    by_cases hemp : tmpl.children.isEmpty = true
    · rw [if_pos hemp]
    · rw [if_neg hemp]

theorem C8_merge_roundtrip_uniform_optionality_witness :
    get_metadata_template_with_values (docToXml ⟨[⟨"A", some ""⟩]⟩) requiredOnlyXsd
      = some ⟨[⟨"A", some ""⟩]⟩ :=
  C8_merge_roundtrip_uniform_optionality requiredOnlyXsd ⟨[⟨"A", some ""⟩]⟩
    (by decide) (Or.inr (by decide))

/-! ## The default populator -/

theorem setFirstText_getElem (t : String) (txt : Option String) :
    ∀ (l : List Inst) (i : Nat),
      (setFirstText t txt l)[i]? = l[i]?
      ∨ ∃ c, l[i]? = some c ∧ c.tag = t
          ∧ (setFirstText t txt l)[i]? = some { c with text := txt } := by
  intro l
  induction l with
  | nil => intro i; left; rfl
  | cons c cs ih =>
    intro i
    by_cases h : c.tag == t
    · simp only [setFirstText, if_pos h]
      cases i with
      | zero =>
        right
        exact ⟨c, by simp, by simpa using h, by simp⟩
      | succ n =>
        left
        simp only [List.getElem?_cons_succ]
    · simp only [setFirstText, if_neg h]
      cases i with
      | zero =>
        left
        simp only [List.getElem?_cons_zero]
      | succ n =>
        simp only [List.getElem?_cons_succ]
        exact ih n

theorem populate_step_multi_preserve (root : Xml) (d : Doc) (e : Xml) (i : Nat) (c : Inst)
    (hc : d.children[i]? = some c)
    (hm : is_field_multi_valued c.tag root = true) :
    (populate_step root false d e).children[i]? = some c := by
  have hset : ∀ txt : Option String,
      is_field_multi_valued (elemName e) root = false →
      (⟨setFirstText (elemName e) txt d.children⟩ : Doc).children[i]? = some c := by
    intro txt hmf
    rcases setFirstText_getElem (elemName e) txt d.children i with
      h | ⟨c', hc', htagc, _⟩
    · show (setFirstText (elemName e) txt d.children)[i]? = some c
      rw [h]
      exact hc
    · obtain rfl : c' = c := Option.some_injective _ (hc'.symm.trans hc)
      rw [htagc] at hm
      rw [hm] at hmf
      exact Bool.noConfusion hmf
  unfold populate_step
  split
  · exact hc
  · split
    · exact hc
    · split
      · rename_i first_value tail hrestr hmulti
        split
        · exact hset first_value hmulti
        · exact hc
      · simp only [Bool.and_false, Bool.false_eq_true, if_false]
        exact hc

theorem populate_fold_multi_preserve (root : Xml) :
    ∀ (es : List Xml) (d : Doc) (i : Nat) (c : Inst),
      d.children[i]? = some c → is_field_multi_valued c.tag root = true →
      (es.foldl (populate_step root false) d).children[i]? = some c := by
  intro es
  induction es with
  | nil => intro d i c hc _; exact hc
  | cons e es ih =>
    intro d i c hc hm
    exact ih _ i c (populate_step_multi_preserve root d e i c hc hm) hm

/-- Claim C9 counterexample: with `skip_optional = True` the populate loop's
`elif is_optional and skip_optional` branch also fires for multi-valued
fields: the optional multi-valued `Email` instance's text `"x"` is forced to
`""`, so `populate_default_values` does not leave multi-valued instances
untouched regardless of the flag. -/
theorem C9_counterexample_skip_blanks_multivalued :
    (⟨[⟨"Email", some "x"⟩]⟩ : Doc).children[0]? = some ⟨"Email", some "x"⟩ ∧
    is_field_multi_valued "Email" sampleXsd = true ∧
    (populate_default_values ⟨[⟨"Email", some "x"⟩]⟩ sampleXsd true).children[0]?
      = some ⟨"Email", some ""⟩ := by
  refine ⟨by decide, by decide, by decide⟩

/-- Claim C9 amended: with `skipOptional = false`, `populate_default_values`
leaves every instance of a multi-valued field entirely unchanged, regardless
of the field's optionality or its restriction values.  (With
`skipOptional = true` the first instance of an optional multi-valued field is
blanked — see the counterexample.) -/
theorem C9_applyDefaults_leaves_multivalued (d : Doc) (root : Xml) (i : Nat) (c : Inst)
    (hc : d.children[i]? = some c)
    (hm : is_field_multi_valued c.tag root = true) :
    (populate_default_values d root false).children[i]? = some c :=
  populate_fold_multi_preserve root (xsdElements root) d i c hc hm

theorem C9_applyDefaults_leaves_multivalued_witness :
    (populate_default_values ⟨[⟨"Email", some "x"⟩, ⟨"Format", some ""⟩]⟩ sampleXsd
        false).children[0]?
      = some ⟨"Email", some "x"⟩ :=
  C9_applyDefaults_leaves_multivalued ⟨[⟨"Email", some "x"⟩, ⟨"Format", some ""⟩]⟩
    sampleXsd 0 ⟨"Email", some "x"⟩ (by decide) (by decide)

/-! ## Multi-valued idempotence -/

theorem add_value_multi_cases {d0 : Doc} {f v : String} {root : Xml} {d1 : Doc}
    (hok : add_value_to_metadata d0 f v root = (none, d1))
    (hm : is_field_multi_valued f root = true) :
    ((findInstances d0 f).any (fun e => e.text == some v) = true
      ∧ d1 = remove_empty_elements d0 f)
    ∨ (∃ p, (findInstances d0 f).any (fun e => e.text == some v) = false
        ∧ find_insert_position d0 f root = some p
        ∧ d1 = remove_empty_elements ⟨listInsert p ⟨f, some v⟩ d0.children⟩ f) := by
  have hr := add_value_ok_restriction hok
  unfold add_value_to_metadata at hok
  rw [if_neg hr] at hok
  simp only [hm, if_true] at hok
  split at hok
  · left
    exact ⟨by assumption, (congrArg Prod.snd hok).symm⟩
  · rename_i hany
    rw [Bool.not_eq_true] at hany
    split at hok
    · exact Option.noConfusion (congrArg Prod.fst hok)
    · rename_i p hp
      right
      exact ⟨p, hany, hp, (congrArg Prod.snd hok).symm⟩

/-- Removing blank instances does not change the instances holding a
non-blank value. -/
theorem remove_empty_count (X : Doc) (f v : String) (hnb : isBlank (some v) = false) :
    (remove_empty_elements X f).children.filter (fun c => c.tag == f && c.text == some v)
      = X.children.filter (fun c => c.tag == f && c.text == some v) := by
  unfold remove_empty_elements
  rw [List.filter_filter]
  apply List.filter_congr
  intro c _
  by_cases h1 : (c.tag == f && c.text == some v) = true
  · have h2 : c.text = some v := by
      have := (Bool.and_eq_true _ _).mp h1
      exact eq_of_beq this.2
    have h3 : isBlank c.text = false := h2 ▸ hnb
    simp [h1, h3]
  · simp only [Bool.not_eq_true] at h1
    simp [h1]

theorem remove_empty_idem (X : Doc) (f : String) :
    remove_empty_elements (remove_empty_elements X f) f = remove_empty_elements X f := by
  unfold remove_empty_elements
  congr 1
  rw [List.filter_filter]
  apply List.filter_congr
  intro c _
  cases h : !(c.tag == f && isBlank c.text) <;> simp [h]

theorem filter_listInsert (q : Inst → Bool) (p : Nat) (a : Inst) (l : List Inst) :
    ((listInsert p a l).filter q).length
      = (l.filter q).length + (if q a then 1 else 0) := by
  unfold listInsert
  rw [List.filter_append, List.filter_cons]
  have hl : l.filter q = (l.take p).filter q ++ (l.drop p).filter q := by
    rw [← List.filter_append, List.take_append_drop]
  rw [hl]
  by_cases hq : q a = true <;> simp [hq] <;> omega

theorem count_zero_of_not_any {X : Doc} {f v : String}
    (hany : (findInstances X f).any (fun e => e.text == some v) = false) :
    X.children.filter (fun c => c.tag == f && c.text == some v) = [] := by
  rw [List.filter_eq_nil_iff]
  intro c hc hcontra
  rw [Bool.and_eq_true] at hcontra
  have hmem : c ∈ findInstances X f := by
    unfold findInstances
    rw [List.mem_filter]
    exact ⟨hc, hcontra.1⟩
  have : (findInstances X f).any (fun e => e.text == some v) = true :=
    List.any_eq_true.mpr ⟨c, hmem, hcontra.2⟩
  rw [this] at hany
  exact Bool.noConfusion hany

theorem any_of_count_pos {X : Doc} {f v : String}
    (h : 0 < (X.children.filter (fun c => c.tag == f && c.text == some v)).length) :
    (findInstances X f).any (fun e => e.text == some v) = true := by
  have hne : X.children.filter (fun c => c.tag == f && c.text == some v) ≠ [] :=
    List.length_pos.mp h
  obtain ⟨c, hc⟩ := List.exists_mem_of_ne_nil _ hne
  rw [List.mem_filter, Bool.and_eq_true] at hc
  apply List.any_eq_true.mpr
  refine ⟨c, ?_, hc.2.2⟩
  unfold findInstances
  rw [List.mem_filter]
  exact ⟨hc.1, hc.2.1⟩

theorem count_pos_of_any {X : Doc} {f v : String}
    (hany : (findInstances X f).any (fun e => e.text == some v) = true) :
    0 < (X.children.filter (fun c => c.tag == f && c.text == some v)).length := by
  obtain ⟨c, hc, hcv⟩ := List.any_eq_true.mp hany
  unfold findInstances at hc
  rw [List.mem_filter] at hc
  apply List.length_pos.mpr
  have hmem2 : c ∈ X.children.filter (fun c => c.tag == f && c.text == some v) := by
    rw [List.mem_filter, Bool.and_eq_true]
    exact ⟨hc.1, hc.2, hcv⟩
  exact List.ne_nil_of_mem hmem2

/-- Claim C4 counterexample, refuting "exactly one instance with that value"
for arbitrary documents and values.  (i) A document already holding two
duplicate `Email` instances: `setValue` is the identity on it (so a second
call changes nothing), yet two instances with the value remain.
(ii) The blank value `""`: the call succeeds but the pruning pass removes the
inserted instance, leaving zero instances (the document is a fixpoint, so the
second call again yields zero).  (iii) A restricted multi-valued field with a
disallowed value: both calls fail and zero instances exist. -/
theorem C4_counterexample_duplicates_blank_restricted :
    (add_value_to_metadata ⟨[⟨"Email", some "x"⟩, ⟨"Email", some "x"⟩]⟩ "Email" "x"
        sampleXsd
      = (none, ⟨[⟨"Email", some "x"⟩, ⟨"Email", some "x"⟩]⟩) ∧
     ((⟨[⟨"Email", some "x"⟩, ⟨"Email", some "x"⟩]⟩ : Doc).children.filter
        (fun c => c.tag == "Email" && c.text == some "x")).length = 2) ∧
    (add_value_to_metadata ⟨[]⟩ "Email" "" sampleXsd = (none, ⟨[]⟩) ∧
     ((⟨[]⟩ : Doc).children.filter
        (fun c => c.tag == "Email" && c.text == some "")).length = 0) ∧
    (add_value_to_metadata ⟨[]⟩ "Tag" "Blue" restrictedMultiXsd
      = (some MErr.invalidValue, ⟨[]⟩)) := by
  refine ⟨⟨by decide, by decide⟩, ⟨by decide, by decide⟩, by decide⟩

/-- Claim C4 amended: for a multi-valued field, a non-blank value, a document
holding at most one instance with that value, and a first `setValue` call that
succeeds, the document after the first call holds exactly one instance of the
field with that value, and the second call with the same value is the
identity (it inserts nothing new). -/
theorem C4_multi_valued_idempotence (d0 : Doc) (f v : String) (root : Xml) (d1 : Doc)
    (hm : is_field_multi_valued f root = true)
    (hnb : isBlank (some v) = false)
    (hcount : (d0.children.filter (fun c => c.tag == f && c.text == some v)).length ≤ 1)
    (hok : add_value_to_metadata d0 f v root = (none, d1)) :
    add_value_to_metadata d1 f v root = (none, d1) ∧
    (d1.children.filter (fun c => c.tag == f && c.text == some v)).length = 1 := by
  have hr := add_value_ok_restriction hok
  have hcount1 : (d1.children.filter (fun c => c.tag == f && c.text == some v)).length
      = 1 := by
    rcases add_value_multi_cases hok hm with ⟨hany, rfl⟩ | ⟨p, hany, hp, rfl⟩
    · rw [remove_empty_count _ _ _ hnb]
      have hpos := count_pos_of_any hany
      omega
    · rw [remove_empty_count _ _ _ hnb]
      have h0 := count_zero_of_not_any hany
      show ((⟨listInsert p ⟨f, some v⟩ d0.children⟩ : Doc).children.filter
        (fun c => c.tag == f && c.text == some v)).length = 1
      rw [show (⟨listInsert p ⟨f, some v⟩ d0.children⟩ : Doc).children
          = listInsert p ⟨f, some v⟩ d0.children from rfl]
      rw [filter_listInsert]
      rw [h0]
      simp
  have hany1 : (findInstances d1 f).any (fun e => e.text == some v) = true :=
    any_of_count_pos (by rw [hcount1]; exact Nat.one_pos)
  have hd1 : remove_empty_elements d1 f = d1 := by
    rcases add_value_multi_cases hok hm with ⟨_, rfl⟩ | ⟨p, _, _, rfl⟩
    · exact remove_empty_idem d0 f
    · exact remove_empty_idem _ f
  refine ⟨?_, hcount1⟩
  unfold add_value_to_metadata
  rw [if_neg hr]
  simp only [hm, if_true, hany1]
  rw [hd1]

theorem C4_multi_valued_idempotence_witness :
    add_value_to_metadata ⟨[⟨"Email", some "a@test.com"⟩]⟩ "Email" "a@test.com" sampleXsd
      = (none, ⟨[⟨"Email", some "a@test.com"⟩]⟩) ∧
    ((⟨[⟨"Email", some "a@test.com"⟩]⟩ : Doc).children.filter
      (fun c => c.tag == "Email" && c.text == some "a@test.com")).length = 1 :=
  C4_multi_valued_idempotence ⟨[]⟩ "Email" "a@test.com" sampleXsd
    ⟨[⟨"Email", some "a@test.com"⟩]⟩ (by decide) (by decide) (by decide) (by decide)

/-! ## The ordering invariant -/

/-- The names of the catalog elements, in document order: the template's tag
sequence. -/
def catalogNames (xsd_root : Xml) : List String :=
  (catalogElems xsd_root).map (fun e => (getAttr e "name").getD "None")

/-- The `sequencePosition` key of a field name: its index in the sequence's
name list, or the list length when the field has no position. -/
def keyIdx (names : List String) (t : String) : Nat :=
  names.findIdx (fun n => n == t)

/-- The document's instance tags mapped to their position keys. -/
def docKeys (names : List String) (d : Doc) : List Nat :=
  d.children.map (fun c => keyIdx names c.tag)

/-- Schemas matching the spec's data model in the shape the ordering claim
needs: a sequence exists, every cataloged field is exactly a sequence entry,
all are named with pairwise distinct names, and the root wrapper is not
multi-valued. -/
def GoodSchema (root : Xml) : Prop :=
  (firstSequence root).isSome = true
  ∧ (∀ e ∈ catalogElems root, (getAttr e "name").isSome = true)
  ∧ (∀ e ∈ seqEntries root, (getAttr e "name").isSome = true)
  ∧ catalogNames root = entryNames root
  ∧ (entryNames root).Nodup
  ∧ is_field_multi_valued "metadata" root = false

/-- Documents produced by the core operations from a schema: a fresh template,
a merge of any existing document, and closures under successful `setValue`
calls and default population. -/
inductive Produced (root : Xml) : Doc → Prop where
  | template (t : Doc) : build_metadata_template root = some t → Produced root t
  | merge (item : Xml) (t : Doc) :
      get_metadata_template_with_values item root = some t → Produced root t
  | set (d d' : Doc) (f v : String) :
      Produced root d → add_value_to_metadata d f v root = (none, d') →
      Produced root d'
  | populate (d : Doc) (sk : Bool) :
      Produced root d → Produced root (populate_default_values d root sk)

theorem build_tags {root : Xml} {tmpl : Doc}
    (hb : build_metadata_template root = some tmpl) :
    tmpl.children.map Inst.tag = catalogNames root := by
  unfold build_metadata_template at hb
  split at hb
  · obtain rfl := Option.some_injective _ hb.symm
    unfold catalogNames
    rw [List.map_map]
    rfl
  · exact Option.noConfusion hb

theorem setFirstText_map_tag (t : String) (txt : Option String) :
    ∀ l : List Inst, (setFirstText t txt l).map Inst.tag = l.map Inst.tag := by
  intro l
  induction l with
  | nil => rfl
  | cons c cs ih =>
    by_cases h : c.tag == t
    · simp only [setFirstText, if_pos h, List.map_cons]
    · simp only [setFirstText, if_neg h, List.map_cons]
      rw [ih]

theorem populate_step_tags (root : Xml) (sk : Bool) (d : Doc) (e : Xml) :
    (populate_step root sk d e).children.map Inst.tag = d.children.map Inst.tag := by
  unfold populate_step
  split
  · rfl
  · split
    · rfl
    · split
      · split
        · exact setFirstText_map_tag _ _ _
        · rfl
      · split
        · exact setFirstText_map_tag _ _ _
        · rfl

theorem populate_tags (root : Xml) (sk : Bool) :
    ∀ (es : List Xml) (d : Doc),
      (es.foldl (populate_step root sk) d).children.map Inst.tag
        = d.children.map Inst.tag := by
  intro es
  induction es with
  | nil => intro d; rfl
  | cons e es ih =>
    intro d
    rw [List.foldl_cons, ih, populate_step_tags]

theorem docKeys_eq_map_tags (names : List String) (d : Doc) :
    docKeys names d = (d.children.map Inst.tag).map (keyIdx names) := by
  unfold docKeys
  rw [List.map_map]
  rfl

/-- `findIdx` of each member of a duplicate-free list enumerates the list's
indices in order. -/
theorem keyIdx_self_map :
    ∀ names : List String, names.Nodup →
      names.map (keyIdx names) = List.range names.length := by
  intro names
  induction names with
  | nil => intro _; rfl
  | cons n ns ih =>
    intro hnd
    rw [List.nodup_cons] at hnd
    have h0 : keyIdx (n :: ns) n = 0 := by
      unfold keyIdx
      rw [List.findIdx_cons]
      simp
    have hrest : ∀ t ∈ ns, keyIdx (n :: ns) t = keyIdx ns t + 1 := by
      intro t ht
      unfold keyIdx
      rw [List.findIdx_cons]
      have hne : (n == t) = false := by
        have : n ≠ t := fun h => hnd.1 (h ▸ ht)
        simp [this]
      rw [hne]
      rfl
    rw [List.map_cons, h0]
    rw [List.map_congr_left hrest]
    have : ns.map (fun t => keyIdx ns t + 1) = (ns.map (keyIdx ns)).map Nat.succ := by
      rw [List.map_map]
      rfl
    rw [this, ih hnd.2, List.length_cons, List.range_succ_eq_map]

theorem listInsert_cons_succ {α : Type} (n : Nat) (x a : α) (l : List α) :
    listInsert (n + 1) x (a :: l) = a :: listInsert n x l := rfl

theorem mem_listInsert {α : Type} {x y : α} {l : List α} {n : Nat}
    (h : y ∈ listInsert n x l) : y = x ∨ y ∈ l := by
  unfold listInsert at h
  rw [List.mem_append, List.mem_cons] at h
  rcases h with h | h | h
  · exact Or.inr (List.mem_of_mem_take h)
  · exact Or.inl h
  · exact Or.inr (List.mem_of_mem_drop h)

/-- Inserting a key at the number of strictly smaller keys keeps a sorted key
list sorted. -/
theorem pairwise_listInsert_at_count (k : Nat) :
    ∀ l : List Nat, l.Pairwise (· ≤ ·) →
      (listInsert ((l.filter (fun x => decide (x < k))).length) k l).Pairwise (· ≤ ·) := by
  intro l
  induction l with
  | nil =>
    intro _
    exact List.pairwise_singleton _ k
  | cons a t ih =>
    intro h
    rw [List.pairwise_cons] at h
    obtain ⟨ha, ht⟩ := h
    by_cases hak : a < k
    · rw [List.filter_cons, if_pos (by simpa using hak), List.length_cons,
        listInsert_cons_succ]
      rw [List.pairwise_cons]
      constructor
      · intro y hy
        rcases mem_listInsert hy with rfl | hy'
        · exact Nat.le_of_lt hak
        · exact ha y hy'
      · exact ih ht
    · have hfilter : (a :: t).filter (fun x => decide (x < k)) = [] := by
        rw [List.filter_eq_nil_iff]
        intro x hx
        rcases List.mem_cons.mp hx with rfl | hx'
        · simpa using hak
        · have : a ≤ x := ha x hx'
          have : ¬ x < k := fun hlt => hak (Nat.lt_of_le_of_lt this hlt)
          simpa using this
      rw [hfilter]
      show (k :: a :: t).Pairwise (· ≤ ·)
      rw [List.pairwise_cons]
      refine ⟨?_, List.pairwise_cons.mpr ⟨ha, ht⟩⟩
      intro y hy
      have hka : k ≤ a := Nat.le_of_not_lt hak
      rcases List.mem_cons.mp hy with rfl | hy'
      · exact hka
      · exact Nat.le_trans hka (ha y hy')

theorem map_listInsert {α β : Type} (g : α → β) (n : Nat) (x : α) (l : List α) :
    (listInsert n x l).map g = listInsert n (g x) (l.map g) := by
  unfold listInsert
  rw [List.map_append, List.map_cons, List.map_take, List.map_drop]

theorem filterMap_tags_sublist {g : Inst → Option Inst}
    (hg : ∀ c c', g c = some c' → c'.tag = c.tag) :
    ∀ l : List Inst, ((l.filterMap g).map Inst.tag).Sublist (l.map Inst.tag) := by
  intro l
  induction l with
  | nil => exact List.Sublist.refl _
  | cons c cs ih =>
    rw [List.filterMap_cons]
    rcases hgc : g c with _ | c'
    · exact List.Sublist.cons _ ih
    · rw [List.map_cons, List.map_cons, hg c c' hgc]
      exact List.Sublist.cons₂ _ ih

/-- A field with a position and the same key as another positioned name is
that name: keys are injective below the sequence length. -/
theorem eq_of_keyIdx_eq {names : List String} {t f : String}
    (hk : keyIdx names t = keyIdx names f)
    (hlt : keyIdx names f < names.length) : t = f := by
  have hlt2 : keyIdx names t < names.length := hk ▸ hlt
  have h1 : (names.get ⟨keyIdx names f, hlt⟩ == f) = true :=
    @List.findIdx_get _ (fun n => n == f) names hlt
  have h2 : (names.get ⟨keyIdx names t, hlt2⟩ == t) = true :=
    @List.findIdx_get _ (fun n => n == t) names hlt2
  have heq : names.get ⟨keyIdx names t, hlt2⟩ = names.get ⟨keyIdx names f, hlt⟩ := by
    congr 1
    exact Fin.ext hk
  rw [heq] at h2
  have ht := eq_of_beq h2
  have hf := eq_of_beq h1
  rw [← ht]
  exact hf

theorem keyIdx_lt_length_of_mem {names : List String} {f : String}
    (hf : f ∈ names) : keyIdx names f < names.length :=
  List.findIdx_lt_length.mpr ⟨f, hf, by simp⟩

theorem mem_precedingFields_iff (t f : String) :
    ∀ names : List String,
      (t ∈ precedingFields f names ↔ keyIdx names t < keyIdx names f) := by
  intro names
  induction names with
  | nil =>
    simp [precedingFields, keyIdx]
  | cons n ns ih =>
    by_cases hnf : (n == f) = true
    · have hpf : precedingFields f (n :: ns) = [] := by
        unfold precedingFields
        rw [List.takeWhile_cons, hnf]
        rfl
      have hkf : keyIdx (n :: ns) f = 0 := by
        unfold keyIdx
        rw [List.findIdx_cons, hnf]
        rfl
      rw [hpf, hkf]
      simp
    · have hnf2 : (n == f) = false := Bool.eq_false_iff.mpr hnf
      have hpf : precedingFields f (n :: ns) = n :: precedingFields f ns := by
        unfold precedingFields
        rw [List.takeWhile_cons]
        rw [show (!(n == f)) = true by simp [hnf2]]
        rfl
      have hkf : keyIdx (n :: ns) f = keyIdx ns f + 1 := by
        unfold keyIdx
        rw [List.findIdx_cons, hnf2]
        rfl
      rw [hpf, hkf]
      by_cases hnt : (n == t) = true
      · have : n = t := eq_of_beq hnt
        subst this
        have hkt : keyIdx (n :: ns) n = 0 := by
          unfold keyIdx
          rw [List.findIdx_cons]
          simp
        rw [hkt]
        simp
      · have hnt2 : (n == t) = false := Bool.eq_false_iff.mpr hnt
        have hkt : keyIdx (n :: ns) t = keyIdx ns t + 1 := by
          unfold keyIdx
          rw [List.findIdx_cons, hnt2]
          rfl
        rw [hkt]
        constructor
        · intro h
          rcases List.mem_cons.mp h with rfl | h'
          · exact absurd (by simp) hnt
          · exact Nat.succ_lt_succ (ih.mp h')
        · intro h
          exact List.mem_cons_of_mem n (ih.mpr (Nat.lt_of_succ_lt_succ h))

theorem multi_mem_names {root : Xml} (hg : GoodSchema root) {f : String}
    (hm : is_field_multi_valued f root = true) : f ∈ entryNames root := by
  obtain ⟨_, _, _, hce, _, hmm⟩ := hg
  have hne : f ≠ "metadata" := by
    intro h
    rw [h, hmm] at hm
    exact Bool.noConfusion hm
  unfold is_field_multi_valued at hm
  rcases he : findElemByName root f with _ | e
  · rw [he] at hm
    exact Bool.noConfusion hm
  · have hemem : e ∈ root.descendants.filter
        (fun x => x.tag == "xsd:element" && getAttr x "name" == some f) := by
      unfold findElemByName at he
      exact List.mem_of_mem_head? (by rw [he]; exact Option.mem_some_self e)
    rw [List.mem_filter, Bool.and_eq_true] at hemem
    obtain ⟨hdesc, htag, hname⟩ := hemem
    have hnamef : getAttr e "name" = some f := eq_of_beq hname
    have hcat : e ∈ catalogElems root := by
      unfold catalogElems xsdElements
      rw [List.mem_filter]
      refine ⟨List.mem_filter.mpr ⟨hdesc, htag⟩, ?_⟩
      rw [hnamef]
      simp [hne]
    rw [← hce]
    unfold catalogNames
    rw [List.mem_map]
    exact ⟨e, hcat, by rw [hnamef]; rfl⟩

theorem add_value_single_cases {d0 : Doc} {f v : String} {root : Xml} {d1 : Doc}
    (hok : add_value_to_metadata d0 f v root = (none, d1))
    (hm : is_field_multi_valued f root = false) :
    (findInstances d0 f ≠ [] ∧ d1 = ⟨setFirstText f (some v) d0.children⟩)
    ∨ (∃ p, findInstances d0 f = []
        ∧ find_insert_position d0 f root = some p
        ∧ d1 = ⟨listInsert p ⟨f, some v⟩ d0.children⟩) := by
  have hr := add_value_ok_restriction hok
  unfold add_value_to_metadata at hok
  rw [if_neg hr] at hok
  simp only [hm, Bool.false_eq_true, if_false] at hok
  split at hok
  · rename_i hne
    left
    exact ⟨hne, (congrArg Prod.snd hok).symm⟩
  · rename_i hne
    rw [not_not] at hne
    split at hok
    · exact Option.noConfusion (congrArg Prod.fst hok)
    · rename_i p hp
      right
      exact ⟨p, hne, hp, (congrArg Prod.snd hok).symm⟩

theorem insert_pos_count_keys {root : Xml} (hg : GoodSchema root) (d : Doc) (f : String)
    {p : Nat} (hp : find_insert_position d f root = some p) :
    p = ((docKeys (entryNames root) d).filter
          (fun x => decide (x < keyIdx (entryNames root) f))).length := by
  obtain ⟨hs, _, hsn, _, hnd, _⟩ := hg
  rw [find_insert_position_eq d f root hs hsn hnd] at hp
  obtain rfl := Option.some_injective _ hp.symm
  unfold docKeys
  rw [List.filter_map, List.length_map]
  apply congrArg List.length
  apply List.filter_congr
  intro c _
  show decide (c.tag ∈ precedingFields f (entryNames root))
      = decide (keyIdx (entryNames root) c.tag < keyIdx (entryNames root) f)
  exact decide_eq_decide.mpr (mem_precedingFields_iff c.tag f (entryNames root))

/-- The ordering invariant: the document's instance keys (sequence positions,
with `length` standing for "no position") are non-decreasing. -/
def SortedDoc (root : Xml) (d : Doc) : Prop :=
  (docKeys (entryNames root) d).Pairwise (· ≤ ·)

theorem sorted_of_tags_sublist {root : Xml} {d d' : Doc}
    (hsub : (d'.children.map Inst.tag).Sublist (d.children.map Inst.tag))
    (hs : SortedDoc root d) : SortedDoc root d' := by
  unfold SortedDoc at *
  rw [docKeys_eq_map_tags] at *
  exact List.Pairwise.sublist (hsub.map _) hs

theorem remove_empty_tags_sublist (X : Doc) (f : String) :
    ((remove_empty_elements X f).children.map Inst.tag).Sublist
      (X.children.map Inst.tag) := by
  unfold remove_empty_elements
  exact (List.filter_sublist _).map _

theorem sorted_insert {root : Xml} (hg : GoodSchema root) {d : Doc} {f v : String}
    {p : Nat} (hp : find_insert_position d f root = some p)
    (hs : SortedDoc root d) :
    SortedDoc root ⟨listInsert p ⟨f, some v⟩ d.children⟩ := by
  have hp2 := insert_pos_count_keys hg d f hp
  unfold SortedDoc
  have hkeys : docKeys (entryNames root) ⟨listInsert p ⟨f, some v⟩ d.children⟩
      = listInsert p (keyIdx (entryNames root) f) (docKeys (entryNames root) d) := by
    unfold docKeys
    exact map_listInsert _ p _ _
  rw [hkeys, hp2]
  exact pairwise_listInsert_at_count _ _ hs

theorem template_sorted {root : Xml} (hg : GoodSchema root) {tmpl : Doc}
    (hb : build_metadata_template root = some tmpl) : SortedDoc root tmpl := by
  obtain ⟨_, _, _, hce, hnd, _⟩ := hg
  unfold SortedDoc
  rw [docKeys_eq_map_tags, build_tags hb, hce, keyIdx_self_map _ hnd]
  exact (List.pairwise_lt_range _).imp Nat.le_of_lt

theorem build_some_of_named {root : Xml}
    (hn : ∀ e ∈ catalogElems root, (getAttr e "name").isSome = true) :
    ∃ tmpl, build_metadata_template root = some tmpl := by
  unfold build_metadata_template
  rw [if_pos (List.all_eq_true.mpr hn)]
  exact ⟨_, rfl⟩

theorem merge_sorted {root : Xml} (hg : GoodSchema root) {item : Xml} {t : Doc}
    (hm : get_metadata_template_with_values item root = some t) :
    SortedDoc root t := by
  obtain ⟨tmpl, hb⟩ := build_some_of_named hg.2.1
  have htmpl := template_sorted hg hb
  unfold get_metadata_template_with_values at hm
  rw [hb] at hm
  simp only [] at hm
  split at hm
  · obtain rfl := Option.some_injective _ hm
    exact htmpl
  · obtain rfl := Option.some_injective _ hm
    exact sorted_of_tags_sublist
      (filterMap_tags_sublist (fun c c' h => mergeField_tag h) tmpl.children) htmpl

theorem set_sorted {root : Xml} (hg : GoodSchema root) {d d' : Doc} {f v : String}
    (hok : add_value_to_metadata d f v root = (none, d'))
    (hs : SortedDoc root d) : SortedDoc root d' := by
  by_cases hmv : is_field_multi_valued f root = true
  · rcases add_value_multi_cases hok hmv with ⟨_, rfl⟩ | ⟨p, _, hp, rfl⟩
    · exact sorted_of_tags_sublist (remove_empty_tags_sublist d f) hs
    · exact sorted_of_tags_sublist (remove_empty_tags_sublist _ f)
        (sorted_insert hg hp hs)
  · rw [Bool.not_eq_true] at hmv
    rcases add_value_single_cases hok hmv with ⟨_, rfl⟩ | ⟨p, _, hp, rfl⟩
    · unfold SortedDoc at *
      rw [docKeys_eq_map_tags] at *
      rw [show (⟨setFirstText f (some v) d.children⟩ : Doc).children.map Inst.tag
          = d.children.map Inst.tag from setFirstText_map_tag f (some v) d.children]
      exact hs
    · exact sorted_insert hg hp hs

theorem produced_sorted {root : Xml} (hg : GoodSchema root) :
    ∀ {d : Doc}, Produced root d → SortedDoc root d := by
  intro d hp
  induction hp with
  | template t hb => exact template_sorted hg hb
  | merge item t hm => exact merge_sorted hg hm
  | set d d' f v hprod hok ih => exact set_sorted hg hok ih
  | populate d sk hprod ih =>
    unfold SortedDoc at *
    rw [docKeys_eq_map_tags] at *
    unfold populate_default_values
    rw [populate_tags]
    exact ih

theorem pairwise_le_get_le {l : List Nat} (h : l.Pairwise (· ≤ ·))
    (i j : Fin l.length) (hij : i.1 ≤ j.1) : l.get i ≤ l.get j := by
  rcases Nat.lt_or_ge i.1 j.1 with hlt | hge
  · exact List.pairwise_iff_get.mp h i j hlt
  · have : i = j := Fin.ext (Nat.le_antisymm hij hge)
    rw [this]

theorem sorted_contiguous {root : Xml} (hg : GoodSchema root) {d : Doc}
    (hs : SortedDoc root d) {f : String}
    (hm : is_field_multi_valued f root = true) :
    ∀ i j k : Nat, i ≤ j → j ≤ k →
      (d.children.map Inst.tag)[i]? = some f →
      (d.children.map Inst.tag)[k]? = some f →
      (d.children.map Inst.tag)[j]? = some f := by
  intro i j k hij hjk hi hk
  have hf : f ∈ entryNames root := multi_mem_names hg hm
  have hkf : keyIdx (entryNames root) f < (entryNames root).length :=
    keyIdx_lt_length_of_mem hf
  have hs2 : (d.children.map Inst.tag).Pairwise
      (fun a b => keyIdx (entryNames root) a ≤ keyIdx (entryNames root) b) := by
    unfold SortedDoc at hs
    rw [docKeys_eq_map_tags] at hs
    exact List.pairwise_map.mp hs
  have hklen : k < (d.children.map Inst.tag).length := by
    rcases Nat.lt_or_ge k (d.children.map Inst.tag).length with h | h
    · exact h
    · rw [List.getElem?_eq_none h] at hk
      exact Option.noConfusion hk
  have hjlen : j < (d.children.map Inst.tag).length := Nat.lt_of_le_of_lt hjk hklen
  have hilen : i < (d.children.map Inst.tag).length := Nat.lt_of_le_of_lt hij hjlen
  have hti : (d.children.map Inst.tag).get ⟨i, hilen⟩ = f := by
    rw [List.getElem?_eq_getElem hilen] at hi
    rw [List.get_eq_getElem]
    exact Option.some_injective _ hi
  have htk : (d.children.map Inst.tag).get ⟨k, hklen⟩ = f := by
    rw [List.getElem?_eq_getElem hklen] at hk
    rw [List.get_eq_getElem]
    exact Option.some_injective _ hk
  have hmono : ∀ (a b : Fin (d.children.map Inst.tag).length), a.1 ≤ b.1 →
      keyIdx (entryNames root) ((d.children.map Inst.tag).get a)
        ≤ keyIdx (entryNames root) ((d.children.map Inst.tag).get b) := by
    intro a b hab
    rcases Nat.lt_or_ge a.1 b.1 with hlt | hge
    · exact List.pairwise_iff_get.mp hs2 a b hlt
    · rw [Fin.ext (Nat.le_antisymm hab hge)]
  have h1 := hmono ⟨i, hilen⟩ ⟨j, hjlen⟩ hij
  have h2 := hmono ⟨j, hjlen⟩ ⟨k, hklen⟩ hjk
  rw [hti] at h1
  rw [htk] at h2
  have heq : keyIdx (entryNames root) ((d.children.map Inst.tag).get ⟨j, hjlen⟩)
      = keyIdx (entryNames root) f := Nat.le_antisymm h2 h1
  have htj : (d.children.map Inst.tag).get ⟨j, hjlen⟩ = f := eq_of_keyIdx_eq heq hkf
  rw [List.getElem?_eq_getElem hjlen]
  exact congrArg some htj

/-- Claim C3 counterexample.  First input: with `strayFieldXsd` (which
declares `X` outside the sequence) a document produced by a merge followed by
a successful `setValue` holds `B` (sequence position 1) before `A` (position
0) — the positions are decreasing, violating the ordering invariant.  Second
input: two successive appends to the multi-valued `Email` field arrive in
reverse insertion order (`b` before the earlier `a`), refuting "in insertion
order among themselves". -/
theorem C3_counterexample_order_violations :
    (get_metadata_template_with_values
        (Xml.mk "metadata" [] none [Xml.mk "A" [] (some "a") []]) strayFieldXsd
      = some ⟨[⟨"X", some ""⟩, ⟨"A", some "a"⟩]⟩
     ∧ add_value_to_metadata ⟨[⟨"X", some ""⟩, ⟨"A", some "a"⟩]⟩ "B" "v" strayFieldXsd
      = (none, ⟨[⟨"X", some ""⟩, ⟨"B", some "v"⟩, ⟨"A", some "a"⟩]⟩)
     ∧ entryNames strayFieldXsd = ["A", "B"]) ∧
    (add_value_to_metadata ⟨[⟨"Email", some "a"⟩, ⟨"Format", some ""⟩]⟩ "Email" "b"
        sampleXsd
      = (none, ⟨[⟨"Email", some "b"⟩, ⟨"Email", some "a"⟩, ⟨"Format", some ""⟩]⟩)
     ∧ is_field_multi_valued "Email" sampleXsd = true) := by
  refine ⟨⟨by decide, by decide, by decide⟩, by decide, by decide⟩

/-- Claim C3 amended: for schemas whose cataloged fields are exactly the
(distinctly named) entries of the first top-level sequence, every document
produced by the core operations has its instance position keys non-decreasing
(instances of fields with no position count as after all positioned ones),
and all instances of any multi-valued field are contiguous.  (Within a
multi-valued field's block, instances appear in reverse insertion order, not
insertion order — see the counterexample.) -/
theorem C3_produced_ordering_invariant (root : Xml) (d : Doc)
    (hg : GoodSchema root) (hp : Produced root d) :
    (docKeys (entryNames root) d).Pairwise (· ≤ ·) ∧
    (∀ f : String, is_field_multi_valued f root = true →
      ∀ i j k : Nat, i ≤ j → j ≤ k →
        (d.children.map Inst.tag)[i]? = some f →
        (d.children.map Inst.tag)[k]? = some f →
        (d.children.map Inst.tag)[j]? = some f) := by
  have hs : SortedDoc root d := produced_sorted hg hp
  exact ⟨hs, fun f hm => sorted_contiguous hg hs hm⟩

theorem C3_produced_ordering_invariant_witness :
    (docKeys (entryNames sampleXsd) ⟨[⟨"Email", some ""⟩, ⟨"Format", some ""⟩]⟩).Pairwise
        (· ≤ ·) ∧
    (∀ f : String, is_field_multi_valued f sampleXsd = true →
      ∀ i j k : Nat, i ≤ j → j ≤ k →
        ((⟨[⟨"Email", some ""⟩, ⟨"Format", some ""⟩]⟩ : Doc).children.map Inst.tag)[i]?
          = some f →
        ((⟨[⟨"Email", some ""⟩, ⟨"Format", some ""⟩]⟩ : Doc).children.map Inst.tag)[k]?
          = some f →
        ((⟨[⟨"Email", some ""⟩, ⟨"Format", some ""⟩]⟩ : Doc).children.map Inst.tag)[j]?
          = some f) :=
  C3_produced_ordering_invariant sampleXsd ⟨[⟨"Email", some ""⟩, ⟨"Format", some ""⟩]⟩
    (by unfold GoodSchema; refine ⟨by decide, by decide, by decide, by decide, by decide, by decide⟩)
    (Produced.template _ (by decide))
